import Mathlib

/-!
Verification of the content-to-markup conversion core of the thesis builder
(`assembler.py`).  Text is modelled as `List Char`; the regular-expression
scanning, substitution passes and block rendering are embedded as executable
functions that mirror the Python source line by line.
-/

/-- Text is a list of characters (Python `str`). -/
abbrev Str := List Char

/-- Convert a Lean string literal to the character-list model. -/
def s2l (s : String) : Str := s.data

/-- The newline character. -/
def nl : Char := '\n'

/-- The opening brace character. -/
def lbr : Char := '\x7b'

/-- The closing brace character. -/
def rbr : Char := '\x7d'

/-- Python slicing `text[a:b]` (for `a ≤ b`; clamps like Python does). -/
def extract (s : Str) (a b : Nat) : Str := (s.drop a).take (b - a)

/-- Characters stripped by Python `str.strip()` (ASCII whitespace). -/
def pyIsSpace (c : Char) : Bool :=
  c = ' ' || c = '\t' || c = '\n' || c = '\r' || c = '\x0b' || c = '\x0c'

/-- Python `str.strip()`: drop whitespace from both ends. -/
def pyStrip (l : Str) : Str :=
  ((l.dropWhile pyIsSpace).reverse.dropWhile pyIsSpace).reverse

/-- One fuel-indexed step structure for Python `str.replace(pat, rep)`:
replace non-overlapping occurrences left to right, never rescanning the
replacement text.  Fuel bounds the number of scanned positions. -/
def pyReplaceFuel : Nat → Str → Str → Str → Str
  | 0, s, _, _ => s
  | _ + 1, [], _, _ => []
  | fuel + 1, c :: rest, pat, rep =>
    if pat.isPrefixOf (c :: rest) then
      rep ++ pyReplaceFuel fuel ((c :: rest).drop pat.length) pat rep
    else
      c :: pyReplaceFuel fuel rest pat rep

/-- Python `str.replace` (all patterns used by the source are nonempty). -/
def pyReplace (s pat rep : Str) : Str := pyReplaceFuel s.length s pat rep

/-- Segment kinds produced by the segmentation phase of `create_latex_text`:
`'text'`, `'ref'` and `'math'` in the Python source. -/
inductive SegKind where
  | plain
  | ref
  | math
deriving DecidableEq, Repr

/-- A regex match as recorded by `create_latex_text`:
`(match_type, match.start(), match.end())`; the matched text is always
`text[start:end]`. -/
structure PMatch where
  kind : SegKind
  st : Nat
  en : Nat
deriving DecidableEq, Repr

/-- A segment `(segment_type, content)` as built by `create_latex_text`. -/
structure Seg where
  kind : SegKind
  content : Str
deriving DecidableEq, Repr

/-- Attempt of the pattern `\ref\{[^}]+\}` at the head of `cs`; returns the
match length.  `[^}]+` is greedy but cannot pass the first `}`, so the match
runs to the first closing brace. -/
def matchRefLen (cs : Str) : Option Nat :=
  if (s2l "\\ref" ++ [lbr]).isPrefixOf cs then
    let rest := cs.drop 5
    let body := rest.takeWhile (fun c => c ≠ rbr)
    if 0 < body.length ∧ (rest.drop body.length).head? = some rbr then
      some (5 + body.length + 1)
    else none
  else none

/-- Attempt of the pattern `\$[^$]+?\$` at the head of `cs`; returns the match
length.  `[^$]+?` is non-greedy and cannot contain `$`, so the match runs to
the next dollar sign, which must exist and be at distance at least one. -/
def matchMathLen (cs : Str) : Option Nat :=
  if cs.head? = some '$' then
    let rest := cs.drop 1
    let body := rest.takeWhile (fun c => c ≠ '$')
    if 0 < body.length ∧ (rest.drop body.length).head? = some '$' then
      some (body.length + 2)
    else none
  else none

/-- `re.finditer`: scan left to right, emitting non-overlapping matches and
resuming after each match.  `pos` is the absolute offset of `cs` in the
original text; fuel bounds the number of scanned positions. -/
def findMatches (m : Str → Option Nat) (k : SegKind) :
    Nat → Str → Nat → List PMatch
  | 0, _, _ => []
  | _ + 1, [], _ => []
  | fuel + 1, c :: rest, pos =>
    match m (c :: rest) with
    | some len => ⟨k, pos, pos + len⟩ ::
        findMatches m k fuel ((c :: rest).drop len) (pos + len)
    | none => findMatches m k fuel rest (pos + 1)

/-- `list(re.finditer(pattern_ref, text))` of `create_latex_text`. -/
def refFind (s : Str) : List PMatch :=
  findMatches matchRefLen SegKind.ref s.length s 0

/-- `list(re.finditer(pattern_math, text))` of `create_latex_text`. -/
def mathFind (s : Str) : List PMatch :=
  findMatches matchMathLen SegKind.math s.length s 0

/-- `all_matches`: references then math matches, sorted by start position
(`all_matches.sort(key=lambda x: x[1])`; insertion sort is stable like
Python's sort). -/
def sortedMatches (s : Str) : List PMatch :=
  List.insertionSort (fun a b => a.st ≤ b.st) (refFind s ++ mathFind s)

/-- Step 2 of `create_latex_text`: build segments from the sorted match list,
tracking `last_end`.  A plain segment is emitted for each gap before a match,
every match contributes its own segment, and the trailing text (if any)
becomes a final plain segment. -/
def buildSegs (s : Str) : List PMatch → Nat → List Seg
  | [], last => if last < s.length then [⟨SegKind.plain, s.drop last⟩] else []
  | m :: ms, last =>
    (if last < m.st then [⟨SegKind.plain, extract s last m.st⟩] else []) ++
      ⟨m.kind, extract s m.st m.en⟩ :: buildSegs s ms m.en

/-- The segmentation phase of `create_latex_text` (steps 1 and 2). -/
def createSegments (s : Str) : List Seg := buildSegs s (sortedMatches s) 0

/-- The ordered structural-character replacement table (`replacements` in
`process_plain_text`); Python dicts iterate in insertion order. -/
def replacements : List (Str × Str) :=
  [ (s2l "&", s2l "\\&")
  , (s2l "%", s2l "\\%")
  , (s2l "#", s2l "\\#")
  , (s2l "_", s2l "\\_")
  , (s2l "\x7b", s2l "\\\x7b")
  , (s2l "\x7d", s2l "\\\x7d")
  , (s2l "~", s2l "\\textasciitilde\x7b\x7d")
  , (s2l "^", s2l "\\textasciicircum\x7b\x7d")
  , (s2l "\\", s2l "\\textbackslash\x7b\x7d")
  , (s2l "$", s2l "\\$") ]

/-- The Polish-character transliteration table (`polish_chars`). -/
def polish_chars : List (Str × Str) :=
  [ (s2l "ą", s2l "\\k\x7ba\x7d")
  , (s2l "ć", s2l "\\\x27c")
  , (s2l "ę", s2l "\\k\x7be\x7d")
  , (s2l "ł", s2l "\\l\x7b\x7d")
  , (s2l "ń", s2l "\\\x27n")
  , (s2l "ó", s2l "\\\x27o")
  , (s2l "ś", s2l "\\\x27s")
  , (s2l "ź", s2l "\\\x27z")
  , (s2l "ż", s2l "\\.z")
  , (s2l "Ą", s2l "\\k\x7bA\x7d")
  , (s2l "Ć", s2l "\\\x27C")
  , (s2l "Ę", s2l "\\k\x7bE\x7d")
  , (s2l "Ł", s2l "\\L\x7b\x7d")
  , (s2l "Ń", s2l "\\\x27N")
  , (s2l "Ó", s2l "\\\x27O")
  , (s2l "Ś", s2l "\\\x27S")
  , (s2l "Ź", s2l "\\\x27Z")
  , (s2l "Ż", s2l "\\.Z") ]

/-- The scientific/Unicode symbol table (`special_chars`). -/
def special_chars : List (Str × Str) :=
  [ (s2l "μ", s2l "$\\mu$")
  , (s2l "±", s2l "$\\pm$")
  , (s2l "°", s2l "$^\x7b\\circ\x7d$")
  , (s2l "≈", s2l "$\\approx$")
  , (s2l "≥", s2l "$\\geq$")
  , (s2l "≤", s2l "$\\leq$")
  , (s2l "⁻", s2l "$^\x7b-\x7d$")
  , (s2l "¹", s2l "$^\x7b1\x7d$")
  , (s2l "²", s2l "$^\x7b2\x7d$")
  , (s2l "³", s2l "$^\x7b3\x7d$")
  , (s2l "⁴", s2l "$^\x7b4\x7d$")
  , (s2l "⁵", s2l "$^\x7b5\x7d$")
  , (s2l "⁶", s2l "$^\x7b6\x7d$")
  , (s2l "⁷", s2l "$^\x7b7\x7d$")
  , (s2l "⁸", s2l "$^\x7b8\x7d$")
  , (s2l "⁹", s2l "$^\x7b9\x7d$")
  , (s2l "⁰", s2l "$^\x7b0\x7d$")
  , (s2l "₁", s2l "$_\x7b1\x7d$")
  , (s2l "₂", s2l "$_\x7b2\x7d$")
  , (s2l "₃", s2l "$_\x7b3\x7d$")
  , (s2l "₄", s2l "$_\x7b4\x7d$") ]

/-- `for char, replacement in table.items(): text = text.replace(...)`. -/
def applyReplacements (tbl : List (Str × Str)) (s : Str) : Str :=
  tbl.foldl (fun t pr => pyReplace t pr.1 pr.2) s

/-- Python `\w` on the ASCII inputs in scope: letters, digits, underscore. -/
def isWordChar (c : Char) : Bool := c.isAlpha || c.isDigit || c = '_'

/-- `re.sub(r'\[(\w+)\]', r'\\cite{\1}', text)`: bracketed word tokens become
citation commands; other text is copied unchanged. -/
def subCite : Nat → Str → Str
  | 0, s => s
  | _ + 1, [] => []
  | fuel + 1, c :: rest =>
    if c = '[' then
      let w := rest.takeWhile isWordChar
      if 0 < w.length ∧ (rest.drop w.length).head? = some ']' then
        s2l "\\cite" ++ [lbr] ++ w ++ [rbr] ++ subCite fuel (rest.drop (w.length + 1))
      else c :: subCite fuel rest
    else c :: subCite fuel rest

/-- One of the MULTILINE heading rewrites `re.sub(r'^#+ (.+)$', ...)`: a line
that starts with `marker` and has at least one further character is wrapped in
the structural command `cmd`. -/
def subHeading (marker cmd : Str) (s : Str) : Str :=
  List.intercalate [nl]
    ((s.splitOn nl).map fun line =>
      if marker.isPrefixOf line ∧ marker.length < line.length then
        cmd ++ [lbr] ++ line.drop marker.length ++ [rbr]
      else line)

/-- Non-greedy body search for `\*\*(.+?)\*\*` / `\*(.+?)\*`: consume at least
one non-newline character, stopping at the earliest following delimiter. -/
def findDelimBody (d : Str) : Str → Option (Str × Str)
  | [] => none
  | c :: rest =>
    if c = nl then none
    else if d.isPrefixOf rest then some ([c], rest.drop d.length)
    else
      match findDelimBody d rest with
      | some (body, after) => some (c :: body, after)
      | none => none

/-- `re.sub(r'\*\*(.+?)\*\*', r'\\textbf{\1}', text)` (and the `\*(.+?)\*`
italic variant): leftmost non-overlapping delimited spans become commands. -/
def subDelim (d cmd : Str) : Nat → Str → Str
  | 0, s => s
  | _ + 1, [] => []
  | fuel + 1, c :: rest =>
    if d.isPrefixOf (c :: rest) then
      match findDelimBody d ((c :: rest).drop d.length) with
      | some (body, after) =>
        cmd ++ [lbr] ++ body ++ [rbr] ++ subDelim d cmd fuel after
      | none => c :: subDelim d cmd fuel rest
    else c :: subDelim d cmd fuel rest

/-- `re.sub(r'(\d+)%', r'\1\\%', text)`: a maximal digit run immediately
followed by a percent sign gains an escaped percent. -/
def subNumPercent : Nat → Str → Str
  | 0, s => s
  | _ + 1, [] => []
  | fuel + 1, c :: rest =>
    if c.isDigit then
      let ds := (c :: rest).takeWhile Char.isDigit
      let after := (c :: rest).drop ds.length
      if after.head? = some '%' then
        ds ++ s2l "\\%" ++ subNumPercent fuel (after.drop 1)
      else c :: subNumPercent fuel rest
    else c :: subNumPercent fuel rest

/-- `re.sub(r'(\d+)\s*([µμ])[uU]', r'\1 $\mu$u', text)` for a unit letter pair
(`m`/`M` or `A`/`a`): digits, optional whitespace, a micro sign (U+00B5 or
U+03BC), then the unit letter, normalized to `digits $\mu$unit`. -/
def subMicro (u1 u2 outUnit : Char) : Nat → Str → Str
  | 0, s => s
  | _ + 1, [] => []
  | fuel + 1, c :: rest =>
    if c.isDigit then
      let ds := (c :: rest).takeWhile Char.isDigit
      let after := (c :: rest).drop ds.length
      let ws := after.takeWhile pyIsSpace
      let after2 := after.drop ws.length
      match after2 with
      | m :: u :: tail =>
        if (m = 'µ' ∨ m = 'μ') ∧ (u = u1 ∨ u = u2) then
          ds ++ s2l " $\\mu$" ++ [outUnit] ++ subMicro u1 u2 outUnit fuel tail
        else c :: subMicro u1 u2 outUnit fuel rest
      | _ => c :: subMicro u1 u2 outUnit fuel rest
    else c :: subMicro u1 u2 outUnit fuel rest

/-- `process_plain_text`: ordered substitution passes over a plain segment. -/
def process_plain_text (t : Str) : Str :=
  let t := applyReplacements replacements t
  let t := applyReplacements polish_chars t
  let t := applyReplacements special_chars t
  let t := subCite t.length t
  let t := subHeading (s2l "# ") (s2l "\\chapter") t
  let t := subHeading (s2l "## ") (s2l "\\section") t
  let t := subHeading (s2l "### ") (s2l "\\subsection") t
  let t := subHeading (s2l "#### ") (s2l "\\subsubsection") t
  let t := subDelim (s2l "**") (s2l "\\textbf") t.length t
  let t := subDelim (s2l "*") (s2l "\\textit") t.length t
  let t := subNumPercent t.length t
  let t := pyReplace t (s2l "~70%") (s2l "\\textasciitilde\x7b\x7d70\\%")
  let t := subMicro 'm' 'M' 'm' t.length t
  let t := subMicro 'A' 'a' 'A' t.length t
  t

/-- Step 3 of `create_latex_text`: plain segments are escaped, protected
segments pass through verbatim. -/
def processSegment (g : Seg) : Str :=
  if g.kind = SegKind.plain then process_plain_text g.content else g.content

/-- `create_latex_text`: segment, process, rejoin, then rewrite paragraph
breaks (`result.replace("\n\n", "\n\\par\n")`). -/
def create_latex_text (s : Str) : Str :=
  pyReplace (((createSegments s).map processSegment).flatten)
    (s2l "\n\n") (s2l "\n\\par\n")

/-- The `data` dictionary of a content block; absent JSON keys are `none`. -/
structure BlockData where
  text : Option Str
  textPath : Option Str
  imagePath : Option Str
  caption : Option Str
  label : Option Str
  tableData : Option (List (List Str))
  code : Option Str
  language : Option Str
  equation : Option Str
deriving Repr

/-- A content block: `{ 'type': ..., 'data': ... }`. -/
structure ContentBlock where
  type : Str
  data : BlockData
deriving Repr

/-- The excluded I/O collaborators (spec sections 1 and 6):
`load_external_text` wraps file reading with an encoding-fallback chain, and
the image path resolution wraps `os.path.join`/`os.path.relpath`.  The core's
behaviour is parametric in them. -/
structure Collab where
  loadExternalText : Str → Str → Str
  resolveImagePath : Str → Str → Str

/-- The heading command for a given count of leading `#` characters
(`heading_level == 1` to `4` explicitly, anything else is a paragraph). -/
def headingCmd : Nat → Str
  | 1 => s2l "\\chapter"
  | 2 => s2l "\\section"
  | 3 => s2l "\\subsection"
  | 4 => s2l "\\subsubsection"
  | _ => s2l "\\paragraph"

/-- The per-line heading conversion of the `textPath` branch of
`process_content_block`: a line whose stripped form starts with `#` becomes a
heading command around the escaped remainder; other lines pass through. -/
def headingLine (line : Str) : Str :=
  if (pyStrip line).head? = some '#' then
    let stripped := pyStrip line
    let heading_level := (stripped.takeWhile (fun c => c = '#')).length
    let text_content := pyStrip (stripped.drop heading_level)
    headingCmd heading_level ++ [lbr] ++ create_latex_text text_content ++ [rbr]
  else line

/-- `lines[i].strip().startswith('- ')`: the line opens or continues a list. -/
def startsItem (l : Str) : Bool := (s2l "- ").isPrefixOf (pyStrip l)

/-- The list-detection pass of the `textPath` branch (the index-advancing
`while` loop over `lines`), written as the equivalent two-state machine the
loop implements: outside a list (`false`) an item line opens an `itemize`
region; inside one (`true`) item lines continue it and the first non-item
line (or the end of input) closes it. -/
def listPass : Bool → List Str → List Str
  | false, [] => []
  | true, [] => [s2l "\\end\x7bitemize\x7d"]
  | false, l :: ls =>
    if startsItem l then
      s2l "\\begin\x7bitemize\x7d" :: (s2l "\\item " ++ (pyStrip l).drop 2) ::
        listPass true ls
    else l :: listPass false ls
  | true, l :: ls =>
    if startsItem l then
      (s2l "\\item " ++ (pyStrip l).drop 2) :: listPass true ls
    else s2l "\\end\x7bitemize\x7d" :: l :: listPass false ls

/-- `process_image`: figure wrapper with optional caption and label; the
path arithmetic is delegated to the collaborator. -/
def process_image (env : Collab) (b : ContentBlock) (pageDir : Str) : Str :=
  let image_path := b.data.imagePath.getD []
  let relative_path := env.resolveImagePath image_path pageDir
  let caption := b.data.caption.getD []
  let label := b.data.label.getD []
  s2l "\\begin\x7bfigure\x7d[htbp]\n\\centering\n" ++
    s2l "\\includegraphics[width=0.8\\textwidth]" ++ [lbr] ++ relative_path ++ [rbr] ++ [nl] ++
    (if caption ≠ [] then s2l "\\caption" ++ [lbr] ++ create_latex_text caption ++ [rbr] ++ [nl] else []) ++
    (if label ≠ [] then s2l "\\label" ++ [lbr] ++ label ++ [rbr] ++ [nl] else []) ++
    s2l "\\end\x7bfigure\x7d\n"

/-- `process_table`: centered bordered table; empty `tableData` renders to
the empty fragment; the column count comes from the first row. -/
def process_table (b : ContentBlock) : Str :=
  let table_data := b.data.tableData.getD []
  let caption := b.data.caption.getD []
  let label := b.data.label.getD []
  if table_data = [] then [] else
  let num_cols := (table_data.head?.getD []).length
  s2l "\\begin\x7btable\x7d[htbp]\n\\centering\n" ++
    s2l "\\begin\x7btabular\x7d" ++ [lbr] ++
      List.intercalate (s2l "|") (List.replicate num_cols (s2l "c")) ++ [rbr] ++
      s2l "\n\\hline\n" ++
    (table_data.map (fun row =>
      List.intercalate (s2l " & ") (row.map create_latex_text) ++
        s2l " \\\\ \\hline\n")).flatten ++
    s2l "\\end\x7btabular\x7d\n" ++
    (if caption ≠ [] then s2l "\\caption" ++ [lbr] ++ create_latex_text caption ++ [rbr] ++ [nl] else []) ++
    (if label ≠ [] then s2l "\\label" ++ [lbr] ++ label ++ [rbr] ++ [nl] else []) ++
    s2l "\\end\x7btable\x7d\n"

/-- `process_code`: floating listing with the literal code text unescaped. -/
def process_code (b : ContentBlock) : Str :=
  let code := b.data.code.getD []
  let language := b.data.language.getD (s2l "text")
  let caption := b.data.caption.getD []
  let label := b.data.label.getD []
  s2l "\\begin\x7blisting\x7d[H]\n" ++
    s2l "\\begin\x7bminted\x7d[breaklines, linenos]" ++ [lbr] ++ language ++ [rbr] ++ [nl] ++
    code ++ [nl] ++
    s2l "\\end\x7bminted\x7d\n" ++
    (if caption ≠ [] then s2l "\\caption" ++ [lbr] ++ create_latex_text caption ++ [rbr] ++ [nl] else []) ++
    (if label ≠ [] then s2l "\\label" ++ [lbr] ++ label ++ [rbr] ++ [nl] else []) ++
    s2l "\\end\x7blisting\x7d\n"

/-- `process_equation`: numbered equation with the literal equation text. -/
def process_equation (b : ContentBlock) : Str :=
  let equation := b.data.equation.getD []
  let label := b.data.label.getD []
  s2l "\\begin\x7bequation\x7d\n" ++
    (if label ≠ [] then s2l "\\label" ++ [lbr] ++ label ++ [rbr] ++ [nl] else []) ++
    equation ++ [nl] ++
    s2l "\\end\x7bequation\x7d\n"

/-- `process_content_block`: returns the rendered fragment together with the
list of warnings logged (`logger.warning` calls) during rendering. -/
def process_content_block (env : Collab) (b : ContentBlock) (pageDir : Str) :
    Str × List Str :=
  if b.type = s2l "text" then
    match b.data.text with
    | some text =>
      if text.head? = some '#' then
        let heading_level := (text.takeWhile (fun c => c = '#')).length
        let text_content := pyStrip (text.drop heading_level)
        (headingCmd heading_level ++ [lbr] ++ create_latex_text text_content ++
          [rbr] ++ s2l "\n\n", [])
      else (create_latex_text text ++ s2l "\n\n", [])
    | none =>
      match b.data.textPath with
      | some text_path =>
        let external_text := env.loadExternalText text_path pageDir
        let processed_lines := (external_text.splitOn nl).map headingLine
        let processed_text := List.intercalate [nl] processed_lines
        let result := create_latex_text processed_text
        (List.intercalate [nl] (listPass false (result.splitOn nl)), [])
      | none =>
        ([], [s2l "Text block is missing both \x27text\x27 and \x27textPath\x27"])
  else if b.type = s2l "image" then (process_image env b pageDir ++ [nl], [])
  else if b.type = s2l "table" then (process_table b ++ [nl], [])
  else if b.type = s2l "code" then (process_code b ++ [nl], [])
  else if b.type = s2l "equation" then (process_equation b ++ [nl], [])
  else if b.type = s2l "listing" then (process_code b ++ [nl], [])
  else ([], [s2l "Unknown content block type: " ++ b.type])

set_option maxRecDepth 8000

/-- Two matches occupy disjoint intervals. -/
def Disj (a b : PMatch) : Prop := a.en ≤ b.st ∨ b.en ≤ a.st

/-- The match list is ordered and non-overlapping: every match starts at or
after `lb`, is nonempty, ends by `ub`, and the rest chains on from its end. -/
def MatchChain (lb ub : Nat) : List PMatch → Prop
  | [] => True
  | m :: ms => lb ≤ m.st ∧ m.st < m.en ∧ m.en ≤ ub ∧ MatchChain m.en ub ms

theorem matchChain_mono_lb {lb' lb ub : Nat} {ms : List PMatch} (h : lb' ≤ lb)
    (hc : MatchChain lb ub ms) : MatchChain lb' ub ms := by
  cases ms with
  | nil => simp [MatchChain]
  | cons m ms =>
    simp only [MatchChain] at hc ⊢
    exact ⟨le_trans h hc.1, hc.2⟩

theorem head?_some_pos {α : Type} {l : List α} {a : α} (h : l.head? = some a) :
    0 < l.length := by
  cases l <;> simp_all

theorem matchRefLen_bound (cs : Str) (n : Nat) (h : matchRefLen cs = some n) :
    1 ≤ n ∧ n ≤ cs.length := by
  unfold matchRefLen at h
  dsimp only at h
  split at h
  case isFalse => exact absurd h (by simp)
  case isTrue hpre =>
    split at h
    case isFalse => exact absurd h (by simp)
    case isTrue hc =>
      injection h with h
      have hpre' : (s2l "\\ref" ++ [lbr]) <+: cs := List.isPrefixOf_iff_prefix.mp hpre
      have h5 : 5 ≤ cs.length := by simpa using hpre'.length_le
      have hb2 := (List.takeWhile_prefix (l := cs.drop 5) (fun c => c ≠ rbr)).length_le
      simp only [List.length_drop] at hb2
      have h3 := head?_some_pos hc.2
      simp only [List.length_drop] at h3
      omega

theorem matchMathLen_bound (cs : Str) (n : Nat) (h : matchMathLen cs = some n) :
    1 ≤ n ∧ n ≤ cs.length := by
  unfold matchMathLen at h
  dsimp only at h
  split at h
  case isFalse => exact absurd h (by simp)
  case isTrue hpre =>
    split at h
    case isFalse => exact absurd h (by simp)
    case isTrue hc =>
      injection h with h
      have h1 : 1 ≤ cs.length := head?_some_pos hpre
      have hb2 := (List.takeWhile_prefix (l := cs.drop 1) (fun c => c ≠ '$')).length_le
      simp only [List.length_drop] at hb2
      have h3 := head?_some_pos hc.2
      simp only [List.length_drop] at h3
      omega

theorem findMatches_chain (m : Str → Option Nat) (k : SegKind)
    (hb : ∀ cs n, m cs = some n → 1 ≤ n ∧ n ≤ cs.length) :
    ∀ (fuel : Nat) (cs : Str) (pos : Nat),
      MatchChain pos (pos + cs.length) (findMatches m k fuel cs pos) := by
  intro fuel
  induction fuel with
  | zero => intro cs pos; simp [findMatches, MatchChain]
  | succ fuel ih =>
    intro cs pos
    match cs with
    | [] => simp [findMatches, MatchChain]
    | c :: rest =>
      rw [findMatches]
      cases hm : m (c :: rest) with
      | none =>
        have h := ih rest (pos + 1)
        have hub : pos + 1 + rest.length = pos + (c :: rest).length := by
          simp [List.length_cons]; omega
        rw [hub] at h
        exact matchChain_mono_lb (Nat.le_succ pos) h
      | some len =>
        obtain ⟨hl1, hl2⟩ := hb _ _ hm
        simp only [List.length_cons] at hl2
        have h := ih ((c :: rest).drop len) (pos + len)
        have hub : pos + len + ((c :: rest).drop len).length =
            pos + (c :: rest).length := by
          simp only [List.length_drop, List.length_cons]
          omega
        rw [hub] at h
        simp only [MatchChain]
        exact ⟨Nat.le_refl _, by omega, by simp only [List.length_cons]; omega, h⟩

theorem matchChain_mem {ms : List PMatch} :
    ∀ {lb ub : Nat}, MatchChain lb ub ms →
      ∀ x ∈ ms, lb ≤ x.st ∧ x.st < x.en ∧ x.en ≤ ub := by
  induction ms with
  | nil => intro lb ub _ x hx; simp at hx
  | cons a ms ih =>
    intro lb ub hc x hx
    simp only [MatchChain] at hc
    rcases List.mem_cons.mp hx with rfl | hx'
    · exact ⟨hc.1, hc.2.1, hc.2.2.1⟩
    · have := ih hc.2.2.2 x hx'
      exact ⟨by omega, this.2⟩

theorem matchChain_pairwise {ms : List PMatch} :
    ∀ {lb ub : Nat}, MatchChain lb ub ms → List.Pairwise Disj ms := by
  induction ms with
  | nil => intro lb ub _; simp
  | cons a ms ih =>
    intro lb ub hc
    simp only [MatchChain] at hc
    rw [List.pairwise_cons]
    refine ⟨fun x hx => Or.inl (matchChain_mem hc.2.2.2 x hx).1, ih hc.2.2.2⟩

theorem matchChain_of_sorted (ub : Nat) :
    ∀ (ms : List PMatch) (lb : Nat),
      List.Pairwise (fun a b => a.st ≤ b.st) ms → List.Pairwise Disj ms →
      (∀ x ∈ ms, x.st < x.en ∧ x.en ≤ ub) → (∀ x ∈ ms, lb ≤ x.st) →
      MatchChain lb ub ms := by
  intro ms
  induction ms with
  | nil => intro lb _ _ _ _; simp [MatchChain]
  | cons a ms ih =>
    intro lb hs hd hb hlb
    rw [List.pairwise_cons] at hs hd
    have ha := hb a (List.mem_cons_self a ms)
    simp only [MatchChain]
    refine ⟨hlb a (List.mem_cons_self a ms), ha.1, ha.2, ?_⟩
    refine ih a.en hs.2 hd.2 (fun x hx => hb x (List.mem_cons_of_mem a hx)) ?_
    intro x hx
    rcases hd.1 x hx with h | h
    · exact h
    · have h1 := hs.1 x hx
      have h2 := (hb x (List.mem_cons_of_mem a hx)).1
      omega

theorem extract_append_drop (s : Str) (a b : Nat) (hab : a ≤ b) :
    extract s a b ++ s.drop b = s.drop a := by
  unfold extract
  have h : s.drop b = (s.drop a).drop (b - a) := by
    rw [List.drop_drop]
    congr 1
    omega
  rw [h, List.take_append_drop]

theorem buildSegs_flatten (s : Str) :
    ∀ (ms : List PMatch) (last : Nat), MatchChain last s.length ms →
      ((buildSegs s ms last).map Seg.content).flatten = s.drop last := by
  intro ms
  induction ms with
  | nil =>
    intro last _
    by_cases h : last < s.length
    · simp [buildSegs, h]
    · have hd : s.drop last = [] := List.drop_eq_nil_of_le (by omega)
      simp [buildSegs, h, hd]
  | cons m ms ih =>
    intro last hc
    simp only [MatchChain] at hc
    obtain ⟨h1, h2, h3, h4⟩ := hc
    by_cases hg : last < m.st
    · have hb : buildSegs s (m :: ms) last =
          ⟨SegKind.plain, extract s last m.st⟩ ::
            ⟨m.kind, extract s m.st m.en⟩ :: buildSegs s ms m.en := by
        simp [buildSegs, hg]
      rw [hb]
      simp only [List.map_cons, List.flatten_cons]
      rw [ih m.en h4, extract_append_drop s m.st m.en (le_of_lt h2)]
      exact extract_append_drop s last m.st (le_of_lt hg)
    · have hlast : last = m.st := by omega
      simp only [buildSegs, if_neg hg, List.nil_append, List.map_cons,
        List.flatten_cons]
      rw [ih m.en h4, extract_append_drop s m.st m.en (le_of_lt h2), hlast]

instance : IsTotal PMatch (fun a b => a.st ≤ b.st) :=
  ⟨fun a b => Nat.le_total a.st b.st⟩

instance : IsTrans PMatch (fun a b => a.st ≤ b.st) :=
  ⟨fun _ _ _ => Nat.le_trans⟩

/-- C1.  Segmenter round-trip: if every reference match and every math match
of the input are mutually disjoint, then the segmentation phase of
`create_latex_text` partitions the text so that concatenating all segment
contents in order reproduces the original text exactly. -/
theorem segmenter_round_trip (s : Str)
    (hdisj : ∀ r ∈ refFind s, ∀ m ∈ mathFind s, r.en ≤ m.st ∨ m.en ≤ r.st) :
    ((createSegments s).map Seg.content).flatten = s := by
  have hrc : MatchChain 0 s.length (refFind s) := by
    simpa using findMatches_chain matchRefLen SegKind.ref matchRefLen_bound s.length s 0
  have hmc : MatchChain 0 s.length (mathFind s) := by
    simpa using findMatches_chain matchMathLen SegKind.math matchMathLen_bound s.length s 0
  have hpw : List.Pairwise Disj (refFind s ++ mathFind s) := by
    rw [List.pairwise_append]
    exact ⟨matchChain_pairwise hrc, matchChain_pairwise hmc, hdisj⟩
  have hperm : (sortedMatches s).Perm (refFind s ++ mathFind s) :=
    List.perm_insertionSort _ _
  have hpw' : List.Pairwise Disj (sortedMatches s) :=
    (List.Perm.pairwise_iff (fun h => h.symm) hperm).mpr hpw
  have hsorted : List.Sorted (fun a b => a.st ≤ b.st) (sortedMatches s) :=
    List.sorted_insertionSort _ _
  have hmem : ∀ x ∈ sortedMatches s, x.st < x.en ∧ x.en ≤ s.length := by
    intro x hx
    rcases List.mem_append.mp (hperm.mem_iff.mp hx) with h | h
    · exact (matchChain_mem hrc x h).2
    · exact (matchChain_mem hmc x h).2
  have hchain : MatchChain 0 s.length (sortedMatches s) :=
    matchChain_of_sorted s.length _ 0 hsorted hpw' hmem (fun x _ => Nat.zero_le _)
  simpa [createSegments] using buildSegs_flatten s (sortedMatches s) 0 hchain

/-- Witness for C1 at a concrete input with one math and one reference span. -/
theorem segmenter_round_trip_witness :
    (∀ r ∈ refFind (s2l "a $x$ b \\ref\x7bc\x7d d"),
      ∀ m ∈ mathFind (s2l "a $x$ b \\ref\x7bc\x7d d"),
        r.en ≤ m.st ∨ m.en ≤ r.st) ∧
    ((createSegments (s2l "a $x$ b \\ref\x7bc\x7d d")).map Seg.content).flatten =
      s2l "a $x$ b \\ref\x7bc\x7d d" :=
  ⟨by decide, segmenter_round_trip _ (by decide)⟩

theorem pyRepKeepsHead (rep : Str) :
    ∀ (C : Str) (fuel : Nat) (B : Str),
      ¬ ([nl, nl] <:+: C) → C.getLast? ≠ some nl →
      C <+: pyReplaceFuel fuel (C ++ B) [nl, nl] rep := by
  intro C
  induction C with
  | nil => intro fuel B _ _; exact List.nil_prefix
  | cons c C ih =>
    intro fuel B hinf hlast
    rw [List.cons_append]
    cases fuel with
    | zero => exact List.cons_prefix_cons.mpr ⟨rfl, List.prefix_append C B⟩
    | succ fuel =>
      have hnp : ¬ ([nl, nl].isPrefixOf (c :: (C ++ B)) = true) := by
        rw [List.isPrefixOf_iff_prefix]
        intro hp
        obtain ⟨hc, hp2⟩ := List.cons_prefix_cons.mp hp
        cases C with
        | nil => exact hlast (by simp [← hc])
        | cons d C2 =>
          have hp2' : [nl] <+: d :: (C2 ++ B) := by simpa using hp2
          have hd := (List.cons_prefix_cons.mp hp2').1
          exact hinf ⟨[], C2, by simp [← hc, ← hd]⟩
      rw [pyReplaceFuel, if_neg hnp]
      refine List.cons_prefix_cons.mpr ⟨rfl, ih fuel B ?_ ?_⟩
      · exact fun h => hinf (h.trans (List.suffix_cons c C).isInfix)
      · cases C with
        | nil => simp
        | cons d C2 => simpa [List.getLast?_cons_cons] using hlast

theorem pyRepKeepsInner (rep : Str) :
    ∀ (fuel : Nat) (A C B : Str),
      ¬ ([nl, nl] <:+: C) → C.getLast? ≠ some nl → C.head? ≠ some nl →
      C <:+: pyReplaceFuel fuel (A ++ (C ++ B)) [nl, nl] rep := by
  intro fuel
  induction fuel with
  | zero =>
    intro A C B _ _ _
    exact (⟨A, B, by simp⟩ : C <:+: A ++ (C ++ B))
  | succ fuel ih =>
    intro A C B hinf hlast hhead
    cases A with
    | nil => exact (pyRepKeepsHead rep C (fuel + 1) B hinf hlast).isInfix
    | cons a A =>
      rw [List.cons_append]
      by_cases hp : [nl, nl] <+: a :: (A ++ (C ++ B))
      · obtain ⟨ha, hp2⟩ := List.cons_prefix_cons.mp hp
        cases A with
        | nil =>
          cases C with
          | nil => exact List.nil_infix
          | cons c0 C2 =>
            have hp2' : [nl] <+: c0 :: (C2 ++ B) := by simpa using hp2
            have hc0 := (List.cons_prefix_cons.mp hp2').1
            exact absurd (by simp [← hc0]) hhead
        | cons a2 A2 =>
          have hp2' : [nl] <+: a2 :: (A2 ++ (C ++ B)) := by simpa using hp2
          have hstep : pyReplaceFuel (fuel + 1) (a :: ((a2 :: A2) ++ (C ++ B)))
              [nl, nl] rep =
              rep ++ pyReplaceFuel fuel (A2 ++ (C ++ B)) [nl, nl] rep := by
            rw [pyReplaceFuel, if_pos (List.isPrefixOf_iff_prefix.mpr (by
              simpa using hp))]
            rfl
          rw [hstep]
          exact ((ih A2 C B hinf hlast hhead).trans
            (List.suffix_append rep _).isInfix)
      · have hnp : ¬ ([nl, nl].isPrefixOf (a :: (A ++ (C ++ B))) = true) := by
          rw [List.isPrefixOf_iff_prefix]; exact hp
        rw [pyReplaceFuel, if_neg hnp]
        exact List.infix_cons (ih A C B hinf hlast hhead)

theorem matchRefLen_decomp (cs : Str) (n : Nat) (h : matchRefLen cs = some n) :
    ∃ (bod tail : Str), cs = (s2l "\\ref" ++ [lbr]) ++ (bod ++ rbr :: tail) ∧
      n = 5 + bod.length + 1 := by
  unfold matchRefLen at h
  dsimp only at h
  split at h
  case isFalse => exact absurd h (by simp)
  case isTrue hpre =>
    split at h
    case isFalse => exact absurd h (by simp)
    case isTrue hc =>
      injection h with h
      obtain ⟨t, ht⟩ := List.isPrefixOf_iff_prefix.mp hpre
      have hplen : (s2l "\\ref" ++ [lbr]).length = 5 := rfl
      have hdrop := List.drop_left (s2l "\\ref" ++ [lbr]) t
      rw [ht, hplen] at hdrop
      rw [hdrop] at hc h
      obtain ⟨r, hr⟩ := List.takeWhile_prefix (l := t) (fun c => c ≠ rbr)
      have hd := List.drop_left (t.takeWhile (fun c => c ≠ rbr)) r
      rw [hr] at hd
      rw [hd] at hc
      cases r with
      | nil => exact absurd hc.2 (by simp)
      | cons x r2 =>
        have hx : x = rbr := by simpa using hc.2
        rw [hx] at hr
        refine ⟨t.takeWhile (fun c => c ≠ rbr), r2, ?_, h.symm⟩
        rw [← ht]
        exact congrArg (fun y => (s2l "\\ref" ++ [lbr]) ++ y) hr.symm

theorem matchMathLen_decomp (cs : Str) (n : Nat) (h : matchMathLen cs = some n) :
    ∃ (bod tail : Str), cs = '$' :: (bod ++ '$' :: tail) ∧
      n = bod.length + 2 := by
  unfold matchMathLen at h
  dsimp only at h
  split at h
  case isFalse => exact absurd h (by simp)
  case isTrue hpre =>
    split at h
    case isFalse => exact absurd h (by simp)
    case isTrue hc =>
      injection h with h
      obtain ⟨c0, cs', rfl⟩ : ∃ c0 cs', cs = c0 :: cs' := by
        cases cs with
        | nil => exact absurd hpre (by simp)
        | cons c0 cs' => exact ⟨c0, cs', rfl⟩
      have hc0 : c0 = '$' := by simpa using hpre
      have hdrop : (c0 :: cs').drop 1 = cs' := rfl
      rw [hdrop] at hc h
      obtain ⟨r, hr⟩ := List.takeWhile_prefix (l := cs') (fun c => c ≠ '$')
      have hd := List.drop_left (cs'.takeWhile (fun c => c ≠ '$')) r
      rw [hr] at hd
      rw [hd] at hc
      cases r with
      | nil => exact absurd hc.2 (by simp)
      | cons x r2 =>
        have hx : x = '$' := by simpa using hc.2
        rw [hx] at hr
        refine ⟨cs'.takeWhile (fun c => c ≠ '$'), r2, ?_, h.symm⟩
        rw [hc0]
        exact congrArg (fun y => '$' :: y) hr.symm

theorem matchRefLen_shape (cs : Str) (n : Nat) (h : matchRefLen cs = some n) :
    (cs.take n).head? = some '\\' ∧ (cs.take n).getLast? = some rbr := by
  obtain ⟨bod, tail, hcs, hn⟩ := matchRefLen_decomp cs n h
  have hplen : (s2l "\\ref" ++ [lbr]).length = 5 := rfl
  have htake : cs.take n = (s2l "\\ref" ++ [lbr]) ++ (bod ++ [rbr]) := by
    rw [hcs, hn, List.take_append_eq_append_take]
    have h1 : (s2l "\\ref" ++ [lbr]).take (5 + bod.length + 1) =
        s2l "\\ref" ++ [lbr] := List.take_of_length_le (by rw [hplen]; omega)
    have h2 : 5 + bod.length + 1 - (s2l "\\ref" ++ [lbr]).length =
        bod.length + 1 := by rw [hplen]; omega
    rw [h1, h2, List.take_append_eq_append_take]
    have h3 : bod.take (bod.length + 1) = bod :=
      List.take_of_length_le (by omega)
    have h4 : bod.length + 1 - bod.length = 1 := by omega
    rw [h3, h4]
    rfl
  constructor
  · rw [htake]; rfl
  · rw [htake, show (s2l "\\ref" ++ [lbr]) ++ (bod ++ [rbr]) =
      ((s2l "\\ref" ++ [lbr]) ++ bod) ++ [rbr] from by simp]
    exact List.getLast?_concat _

theorem matchMathLen_shape (cs : Str) (n : Nat) (h : matchMathLen cs = some n) :
    (cs.take n).head? = some '$' ∧ (cs.take n).getLast? = some '$' := by
  obtain ⟨bod, tail, hcs, hn⟩ := matchMathLen_decomp cs n h
  have htake : cs.take n = '$' :: (bod ++ ['$']) := by
    rw [hcs, hn, show bod.length + 2 = (bod.length + 1) + 1 from rfl,
      List.take_succ_cons, List.take_append_eq_append_take]
    have h3 : bod.take (bod.length + 1) = bod :=
      List.take_of_length_le (by omega)
    have h4 : bod.length + 1 - bod.length = 1 := by omega
    rw [h3, h4]
    rfl
  constructor
  · rw [htake]; rfl
  · rw [htake, show '$' :: (bod ++ ['$']) = ('$' :: bod) ++ ['$'] from by simp]
    exact List.getLast?_concat _

theorem findMatches_shape (m : Str → Option Nat) (k : SegKind) (s : Str)
    (Q : Str → Prop) (hm : ∀ cs n, m cs = some n → Q (cs.take n)) :
    ∀ (fuel : Nat) (cs : Str) (pos : Nat), cs = s.drop pos →
      ∀ p ∈ findMatches m k fuel cs pos, Q (extract s p.st p.en) := by
  intro fuel
  induction fuel with
  | zero => intro cs pos _ p hp; simp [findMatches] at hp
  | succ fuel ih =>
    intro cs pos hcs p hp
    cases cs with
    | nil => simp [findMatches] at hp
    | cons c rest =>
      rw [findMatches] at hp
      cases hmm : m (c :: rest) with
      | none =>
        rw [hmm] at hp
        refine ih rest (pos + 1) ?_ p hp
        have h1 : s.drop (pos + 1) = (s.drop pos).drop 1 := by
          rw [List.drop_drop]
        rw [h1, ← hcs]
        rfl
      | some len =>
        rw [hmm] at hp
        rcases List.mem_cons.mp hp with rfl | hp'
        · have he : extract s pos (pos + len) = (c :: rest).take len := by
            unfold extract
            rw [← hcs]
            congr 1
            omega
          rw [he]
          exact hm _ _ hmm
        · refine ih ((c :: rest).drop len) (pos + len) ?_ p hp'
          rw [hcs, List.drop_drop]

theorem refFind_shape (s : Str) : ∀ p ∈ refFind s,
    (extract s p.st p.en).head? = some '\\' ∧
      (extract s p.st p.en).getLast? = some rbr :=
  findMatches_shape matchRefLen SegKind.ref s
    (fun x => x.head? = some '\\' ∧ x.getLast? = some rbr)
    matchRefLen_shape s.length s 0 rfl

theorem mathFind_shape (s : Str) : ∀ p ∈ mathFind s,
    (extract s p.st p.en).head? = some '$' ∧
      (extract s p.st p.en).getLast? = some '$' :=
  findMatches_shape matchMathLen SegKind.math s
    (fun x => x.head? = some '$' ∧ x.getLast? = some '$')
    matchMathLen_shape s.length s 0 rfl

theorem buildSegs_protected (s : Str) :
    ∀ (ms : List PMatch) (last : Nat) (g : Seg), g ∈ buildSegs s ms last →
      g.kind ≠ SegKind.plain → ∃ p ∈ ms, g = ⟨p.kind, extract s p.st p.en⟩ := by
  intro ms
  induction ms with
  | nil =>
    intro last g hg hk
    by_cases h : last < s.length
    · rw [buildSegs, if_pos h] at hg
      rw [List.mem_singleton.mp hg] at hk
      exact absurd rfl hk
    · rw [buildSegs, if_neg h] at hg
      simp at hg
  | cons m ms ih =>
    intro last g hg hk
    rw [buildSegs] at hg
    rcases List.mem_append.mp hg with hg1 | hg2
    · by_cases h : last < m.st
      · rw [if_pos h] at hg1
        rw [List.mem_singleton.mp hg1] at hk
        exact absurd rfl hk
      · rw [if_neg h] at hg1
        simp at hg1
    · rcases List.mem_cons.mp hg2 with rfl | hg3
      · exact ⟨m, List.mem_cons_self m ms, rfl⟩
      · obtain ⟨p, hp, he⟩ := ih m.en g hg3 hk
        exact ⟨p, List.mem_cons_of_mem m hp, he⟩

theorem flatten_map_split {α β : Type} (f : α → List β) {l : List α} {g : α}
    (hg : g ∈ l) : ∃ A B, (l.map f).flatten = A ++ (f g ++ B) := by
  obtain ⟨u, v, rfl⟩ := List.append_of_mem hg
  exact ⟨(u.map f).flatten, (v.map f).flatten, by simp⟩

/-- Every protected segment whose content has no double newline appears
verbatim in the output of `create_latex_text`: plain-text escaping never
touches it, and the paragraph-break replacement cannot reach inside it
because a protected span starts with `\` or `$` and ends with `}` or `$`. -/
theorem protected_span_survives (s : Str) (g : Seg) (hg : g ∈ createSegments s)
    (hk : g.kind ≠ SegKind.plain) (hnn : ¬ ([nl, nl] <:+: g.content)) :
    g.content <:+: create_latex_text s := by
  obtain ⟨p, hp, hge⟩ := buildSegs_protected s (sortedMatches s) 0 g hg hk
  have hp2 : p ∈ List.insertionSort (fun a b : PMatch => a.st ≤ b.st)
      (refFind s ++ mathFind s) := hp
  have hp' : p ∈ refFind s ++ mathFind s :=
    (List.perm_insertionSort (fun a b : PMatch => a.st ≤ b.st) _).mem_iff.mp hp2
  have hshape : g.content.head? ≠ some nl ∧ g.content.getLast? ≠ some nl := by
    have hcont : g.content = extract s p.st p.en := by rw [hge]
    rcases List.mem_append.mp hp' with h | h
    · have hs := refFind_shape s p h
      rw [hcont]
      constructor
      · rw [hs.1]; decide
      · rw [hs.2]; decide
    · have hs := mathFind_shape s p h
      rw [hcont]
      constructor
      · rw [hs.1]; decide
      · rw [hs.2]; decide
  obtain ⟨A, B, hAB⟩ := flatten_map_split processSegment hg
  have hproc : processSegment g = g.content := by
    simp [processSegment, hk]
  rw [hproc] at hAB
  unfold create_latex_text pyReplace
  rw [hAB, show s2l "\n\n" = [nl, nl] from rfl]
  exact pyRepKeepsInner _ _ A g.content B hnn hshape.2 hshape.1

/-- C2 (amended).  Protected-content invariance holds for every protected
span that does not contain two consecutive newlines: such a span appears
verbatim in the output of `create_latex_text` (escaping never touches
protected segments; only the final paragraph-break rewrite can reach inside
one, and only at a double newline).  In particular, for the input
`The value $x^2$ satisfies \ref{eq:1}.` the output contains `$x^2$` and
`\ref{eq:1}` verbatim — the output equals the input. -/
theorem protected_content_invariance :
    (∀ (s : Str) (g : Seg), g ∈ createSegments s → g.kind ≠ SegKind.plain →
      ¬ ([nl, nl] <:+: g.content) → g.content <:+: create_latex_text s) ∧
    create_latex_text (s2l "The value $x^2$ satisfies \\ref\x7beq:1\x7d.") =
      s2l "The value $x^2$ satisfies \\ref\x7beq:1\x7d." ∧
    s2l "$x^2$" <:+:
      create_latex_text (s2l "The value $x^2$ satisfies \\ref\x7beq:1\x7d.") ∧
    s2l "\\ref\x7beq:1\x7d" <:+:
      create_latex_text (s2l "The value $x^2$ satisfies \\ref\x7beq:1\x7d.") :=
  ⟨protected_span_survives, by decide, by decide, by decide⟩

/-- Witness for C2: the math segment of the example input, fed through the
invariance theorem. -/
theorem protected_content_invariance_witness :
    Seg.mk SegKind.math (s2l "$x^2$") ∈
      createSegments (s2l "The value $x^2$ satisfies \\ref\x7beq:1\x7d.") ∧
    s2l "$x^2$" <:+:
      create_latex_text (s2l "The value $x^2$ satisfies \\ref\x7beq:1\x7d.") :=
  ⟨by decide, protected_content_invariance.1 _ ⟨SegKind.math, s2l "$x^2$"⟩
    (by decide) (by decide) (by decide)⟩

/-- C2 counterexample: a math span containing a blank line is rewritten by
the final paragraph-break replacement and does not appear verbatim in the
output, so the unconditional claim is false. -/
theorem protected_content_counterexample :
    Seg.mk SegKind.math (s2l "$a\n\nb$") ∈ createSegments (s2l "$a\n\nb$") ∧
    create_latex_text (s2l "$a\n\nb$") = s2l "$a\n\\par\nb$" ∧
    ¬ (s2l "$a\n\nb$" <:+: create_latex_text (s2l "$a\n\nb$")) :=
  ⟨by decide, by decide, by decide⟩

/-- C3: evaluation at the failing inputs.  The backslash substitution runs
after the other structural substitutions and re-triggers on the backslashes
they inserted: `&` maps to `\textbackslash{}&` (not `\&`) and `~` maps to
`\textbackslash{}textasciitilde{}` (not `\textasciitilde{}`). -/
theorem escaping_backslash_retriggers :
    process_plain_text (s2l "&") = s2l "\\textbackslash\x7b\x7d&" ∧
    process_plain_text (s2l "&") ≠ s2l "\\&" ∧
    process_plain_text (s2l "~") =
      s2l "\\textbackslash\x7b\x7dtextasciitilde\x7b\x7d" ∧
    process_plain_text (s2l "~") ≠ s2l "\\textasciitilde\x7b\x7d" :=
  ⟨by decide, by decide, by decide, by decide⟩

/-- C4: evaluation at the failing inputs.  The digit-percent rewrite runs
after percent escaping, so it never sees a raw `%`: `70%` maps to
`70\textbackslash{}%` (not `70\%`) and `~70%` maps to
`\textbackslash{}textasciitilde{}70\textbackslash{}%` (not
`\textasciitilde{}70\%`). -/
theorem numeric_percent_rewriting_dead :
    process_plain_text (s2l "70%") = s2l "70\\textbackslash\x7b\x7d%" ∧
    process_plain_text (s2l "70%") ≠ s2l "70\\%" ∧
    process_plain_text (s2l "~70%") =
      s2l "\\textbackslash\x7b\x7dtextasciitilde\x7b\x7d70\\textbackslash\x7b\x7d%" ∧
    process_plain_text (s2l "~70%") ≠ s2l "\\textasciitilde\x7b\x7d70\\%" :=
  ⟨by decide, by decide, by decide, by decide⟩

theorem findMatches_kind (m : Str → Option Nat) (k : SegKind) :
    ∀ (fuel : Nat) (cs : Str) (pos : Nat),
      ∀ p ∈ findMatches m k fuel cs pos, p.kind = k := by
  intro fuel
  induction fuel with
  | zero => intro cs pos p hp; simp [findMatches] at hp
  | succ fuel ih =>
    intro cs pos p hp
    cases cs with
    | nil => simp [findMatches] at hp
    | cons c rest =>
      rw [findMatches] at hp
      cases hm : m (c :: rest) with
      | none => rw [hm] at hp; exact ih _ _ p hp
      | some len =>
        rw [hm] at hp
        rcases List.mem_cons.mp hp with rfl | hp'
        · rfl
        · exact ih _ _ p hp'

theorem sortedMatches_kind (s : Str) :
    ∀ p ∈ sortedMatches s, p.kind ≠ SegKind.plain := by
  intro p hp
  have hp2 : p ∈ List.insertionSort (fun a b : PMatch => a.st ≤ b.st)
      (refFind s ++ mathFind s) := hp
  have hp' : p ∈ refFind s ++ mathFind s :=
    (List.perm_insertionSort (fun a b : PMatch => a.st ≤ b.st) _).mem_iff.mp hp2
  rcases List.mem_append.mp hp' with h | h
  · rw [findMatches_kind matchRefLen SegKind.ref s.length s 0 p h]
    decide
  · rw [findMatches_kind matchMathLen SegKind.math s.length s 0 p h]
    decide

theorem buildSegs_filter (s : Str) :
    ∀ (ms : List PMatch) (last : Nat), (∀ p ∈ ms, p.kind ≠ SegKind.plain) →
      (buildSegs s ms last).filter (fun g => decide (g.kind ≠ SegKind.plain)) =
        ms.map (fun p => ⟨p.kind, extract s p.st p.en⟩) := by
  intro ms
  induction ms with
  | nil =>
    intro last _
    by_cases h : last < s.length
    · simp [buildSegs, h]
    · simp [buildSegs, h]
  | cons m ms ih =>
    intro last hk
    have hm : m.kind ≠ SegKind.plain := hk m (List.mem_cons_self m ms)
    rw [buildSegs, List.filter_append]
    have hgap : (if last < m.st then [(⟨SegKind.plain, extract s last m.st⟩ : Seg)]
        else []).filter (fun g => decide (g.kind ≠ SegKind.plain)) = [] := by
      by_cases h : last < m.st <;> simp [h]
    rw [hgap, List.nil_append, List.filter_cons]
    simp only [decide_eq_true hm]
    rw [ih m.en (fun p hp => hk p (List.mem_cons_of_mem m hp))]
    rfl

/-- C5 (amended): matches are processed in strict start-offset order
(the combined match list is sorted by start before segment construction),
but a later match that starts inside an already-consumed span is NOT
dropped: no plain gap is emitted for it, yet its full matched content is
still appended as a segment — the protected segments of the output are
exactly the sorted matches, in order, overlap or not.  On the overlapping
input `$a\ref{b$c}` both the math match and the ref match contribute
segments, duplicating the overlapped region. -/
theorem overlap_policy :
    (∀ s : Str, List.Sorted (fun a b => a.st ≤ b.st) (sortedMatches s)) ∧
    (∀ s : Str, (createSegments s).filter
        (fun g => decide (g.kind ≠ SegKind.plain)) =
      (sortedMatches s).map (fun p => ⟨p.kind, extract s p.st p.en⟩)) ∧
    createSegments (s2l "$a\\ref\x7bb$c\x7d") =
      [⟨SegKind.math, s2l "$a\\ref\x7bb$"⟩,
       ⟨SegKind.ref, s2l "\\ref\x7bb$c\x7d"⟩] := by
  refine ⟨fun s => List.sorted_insertionSort _ _,
    fun s => buildSegs_filter s (sortedMatches s) 0 (sortedMatches_kind s),
    by decide⟩

/-- C5 counterexample: on `$a\ref{b$c}` the ref match `[2,11)` starts inside
the already-consumed math match `[0,9)`, yet it still contributes a full
segment to the output — it is not dropped. -/
theorem overlap_not_dropped_counterexample :
    refFind (s2l "$a\\ref\x7bb$c\x7d") = [⟨SegKind.ref, 2, 11⟩] ∧
    mathFind (s2l "$a\\ref\x7bb$c\x7d") = [⟨SegKind.math, 0, 9⟩] ∧
    Seg.mk SegKind.ref (s2l "\\ref\x7bb$c\x7d") ∈
      createSegments (s2l "$a\\ref\x7bb$c\x7d") :=
  ⟨by decide, by decide, by decide⟩

/-- A `data` dictionary holding only an inline `text` entry. -/
def textOnly (t : Str) : BlockData :=
  ⟨some t, none, none, none, none, none, none, none, none⟩

/-- A `data` dictionary holding only a `textPath` entry. -/
def pathOnly (p : Str) : BlockData :=
  ⟨none, some p, none, none, none, none, none, none, none⟩

/-- A collaborator whose external loads always fail to the empty string. -/
def collabNull : Collab := ⟨fun _ _ => [], fun _ _ => []⟩

theorem pcb_heading (env : Collab) (pd : Str) (d : BlockData) (t : Str)
    (hd : d.text = some t) (hh : t.head? = some '#') :
    process_content_block env ⟨s2l "text", d⟩ pd =
      (headingCmd (t.takeWhile (fun c => c = '#')).length ++ [lbr] ++
        create_latex_text
          (pyStrip (t.drop (t.takeWhile (fun c => c = '#')).length)) ++
        [rbr] ++ s2l "\n\n", []) := by
  unfold process_content_block
  rw [if_pos rfl]
  dsimp only
  rw [hd]
  dsimp only
  rw [if_pos hh]

theorem pcb_inline_plain (env : Collab) (pd : Str) (d : BlockData) (t : Str)
    (hd : d.text = some t) (hh : t.head? ≠ some '#') :
    process_content_block env ⟨s2l "text", d⟩ pd =
      (create_latex_text t ++ s2l "\n\n", []) := by
  unfold process_content_block
  rw [if_pos rfl]
  dsimp only
  rw [hd]
  dsimp only
  rw [if_neg hh]

/-- C6.  Inline heading conversion: a text block whose inline text starts
with `#` renders as the heading command for its count of leading `#`
characters, wrapping the formatted stripped remainder; levels 1-4 map to
chapter/section/subsection/subsubsection and 5-or-more to paragraph.
`# Title` gives exactly `\chapter{Title}` plus a trailing blank line and
`## Title` gives `\section{Title}`. -/
theorem inline_heading_conversion :
    (∀ (env : Collab) (pd : Str) (d : BlockData) (t : Str),
      d.text = some t → t.head? = some '#' →
      process_content_block env ⟨s2l "text", d⟩ pd =
        (headingCmd (t.takeWhile (fun c => c = '#')).length ++ [lbr] ++
          create_latex_text
            (pyStrip (t.drop (t.takeWhile (fun c => c = '#')).length)) ++
          [rbr] ++ s2l "\n\n", [])) ∧
    headingCmd 1 = s2l "\\chapter" ∧ headingCmd 2 = s2l "\\section" ∧
    headingCmd 3 = s2l "\\subsection" ∧ headingCmd 4 = s2l "\\subsubsection" ∧
    (∀ k, 5 ≤ k → headingCmd k = s2l "\\paragraph") ∧
    (∀ (env : Collab) (pd : Str),
      process_content_block env ⟨s2l "text", textOnly (s2l "# Title")⟩ pd =
        (s2l "\\chapter\x7bTitle\x7d\n\n", [])) ∧
    (∀ (env : Collab) (pd : Str),
      process_content_block env ⟨s2l "text", textOnly (s2l "## Title")⟩ pd =
        (s2l "\\section\x7bTitle\x7d\n\n", [])) := by
  refine ⟨pcb_heading, rfl, rfl, rfl, rfl, ?_, ?_, ?_⟩
  · intro k hk
    obtain ⟨j, rfl⟩ : ∃ j, k = j + 5 := ⟨k - 5, by omega⟩
    rfl
  · intro env pd
    rw [pcb_heading env pd (textOnly (s2l "# Title")) (s2l "# Title") rfl rfl]
    decide
  · intro env pd
    rw [pcb_heading env pd (textOnly (s2l "## Title")) (s2l "## Title") rfl rfl]
    decide

/-- Witness for C6 at a level-3 heading. -/
theorem inline_heading_conversion_witness :
    process_content_block collabNull ⟨s2l "text", textOnly (s2l "### X")⟩ [] =
      (headingCmd ((s2l "### X").takeWhile (fun c => c = '#')).length ++
        [lbr] ++ create_latex_text (pyStrip ((s2l "### X").drop
          ((s2l "### X").takeWhile (fun c => c = '#')).length)) ++
        [rbr] ++ s2l "\n\n", []) :=
  inline_heading_conversion.1 collabNull [] (textOnly (s2l "### X")) _ rfl rfl

/-- C10.  When inline text starts with `#`, the whole remainder after the
leading `#` run — later lines included — becomes the argument of a single
heading command; nothing is rendered outside that command.  For the two-line
input `# Title\nSecond line` the entire fragment is
`\chapter{Title\nSecond line}` plus a blank line. -/
theorem heading_consumes_whole_remainder :
    (∀ (env : Collab) (pd : Str) (d : BlockData) (t : Str),
      d.text = some t → t.head? = some '#' →
      (process_content_block env ⟨s2l "text", d⟩ pd).1 =
        headingCmd (t.takeWhile (fun c => c = '#')).length ++ ([lbr] ++
          (create_latex_text
            (pyStrip (t.drop (t.takeWhile (fun c => c = '#')).length)) ++
          ([rbr] ++ s2l "\n\n")))) ∧
    (∀ (env : Collab) (pd : Str),
      process_content_block env
          ⟨s2l "text", textOnly (s2l "# Title\nSecond line")⟩ pd =
        (s2l "\\chapter\x7bTitle\nSecond line\x7d\n\n", [])) := by
  constructor
  · intro env pd d t hd hh
    rw [pcb_heading env pd d t hd hh]
    simp
  · intro env pd
    rw [pcb_heading env pd (textOnly (s2l "# Title\nSecond line"))
      (s2l "# Title\nSecond line") rfl rfl]
    decide

/-- Witness for C10 at the two-line input. -/
theorem heading_consumes_whole_remainder_witness :
    (process_content_block collabNull
        ⟨s2l "text", textOnly (s2l "# Title\nSecond line")⟩ []).1 =
      headingCmd ((s2l "# Title\nSecond line").takeWhile
          (fun c => c = '#')).length ++ ([lbr] ++
        (create_latex_text (pyStrip ((s2l "# Title\nSecond line").drop
          ((s2l "# Title\nSecond line").takeWhile
            (fun c => c = '#')).length)) ++ ([rbr] ++ s2l "\n\n"))) :=
  heading_consumes_whole_remainder.1 collabNull []
    (textOnly (s2l "# Title\nSecond line")) _ rfl rfl

theorem item_ne_begin (x : Str) :
    s2l "\\item " ++ x ≠ s2l "\\begin\x7bitemize\x7d" := by
  intro h
  rw [show s2l "\\item " ++ x = '\\' :: 'i' :: (s2l "tem " ++ x) from rfl,
    show s2l "\\begin\x7bitemize\x7d" = '\\' :: 'b' :: s2l "egin\x7bitemize\x7d"
      from rfl] at h
  injection h with _ h
  injection h with h _
  exact absurd h (by decide)

theorem item_ne_end (x : Str) :
    s2l "\\item " ++ x ≠ s2l "\\end\x7bitemize\x7d" := by
  intro h
  rw [show s2l "\\item " ++ x = '\\' :: 'i' :: (s2l "tem " ++ x) from rfl,
    show s2l "\\end\x7bitemize\x7d" = '\\' :: 'e' :: s2l "nd\x7bitemize\x7d"
      from rfl] at h
  injection h with _ h
  injection h with h _
  exact absurd h (by decide)

/-- Is the line one of the two markers emitted by the list-detection pass? -/
def isMark (l : Str) : Bool :=
  decide (l = s2l "\\begin\x7bitemize\x7d" ∨ l = s2l "\\end\x7bitemize\x7d")

/-- `k` balanced, non-nested itemize regions: begin, end, begin, end, ... -/
def altMark : Nat → List Str
  | 0 => []
  | k + 1 => s2l "\\begin\x7bitemize\x7d" :: s2l "\\end\x7bitemize\x7d" :: altMark k

theorem isMark_item (x : Str) : isMark (s2l "\\item " ++ x) = false := by
  simp [isMark, item_ne_begin x, item_ne_end x]

theorem listPass_marks (ls : List Str) (h : ∀ l ∈ ls, isMark l = false) :
    (∃ k, (listPass false ls).filter isMark = altMark k) ∧
    (∃ k, (listPass true ls).filter isMark =
      s2l "\\end\x7bitemize\x7d" :: altMark k) := by
  induction ls with
  | nil => exact ⟨⟨0, rfl⟩, ⟨0, by decide⟩⟩
  | cons l ls ih =>
    have hl : isMark l = false := h l (List.mem_cons_self l ls)
    obtain ⟨⟨k1, hk1⟩, ⟨k2, hk2⟩⟩ := ih (fun x hx => h x (List.mem_cons_of_mem l hx))
    constructor
    · by_cases hs : startsItem l = true
      · refine ⟨k2 + 1, ?_⟩
        rw [listPass, if_pos hs, List.filter_cons, List.filter_cons]
        simp only [isMark_item, show isMark (s2l "\\begin\x7bitemize\x7d") = true
          from by decide]
        rw [hk2]
        rfl
      · refine ⟨k1, ?_⟩
        rw [listPass, if_neg hs, List.filter_cons]
        simp only [hl]
        rw [hk1]
        rfl
    · by_cases hs : startsItem l = true
      · refine ⟨k2, ?_⟩
        rw [listPass, if_pos hs, List.filter_cons]
        simp only [isMark_item]
        rw [hk2]
        rfl
      · refine ⟨k1, ?_⟩
        rw [listPass, if_neg hs, List.filter_cons, List.filter_cons]
        simp only [hl, show isMark (s2l "\\end\x7bitemize\x7d") = true
          from by decide]
        rw [hk1]
        rfl

theorem listPass_open (x : Str) (ls : List Str) (hx : startsItem x = true) :
    listPass false (x :: ls) = s2l "\\begin\x7bitemize\x7d" ::
      (s2l "\\item " ++ (pyStrip x).drop 2) :: listPass true ls := by
  rw [listPass, if_pos hx]

theorem listPass_close (l : Str) (hl : ¬ startsItem l = true) :
    ∀ (items rest : List Str), (∀ x ∈ items, startsItem x = true) →
      listPass true (items ++ l :: rest) =
        items.map (fun x => s2l "\\item " ++ (pyStrip x).drop 2) ++
          (s2l "\\end\x7bitemize\x7d" :: l :: listPass false rest) := by
  intro items
  induction items with
  | nil =>
    intro rest _
    rw [List.nil_append, List.map_nil, List.nil_append, listPass, if_neg hl]
  | cons x items ih =>
    intro rest hall
    rw [List.cons_append, listPass,
      if_pos (hall x (List.mem_cons_self x items)),
      ih rest (fun y hy => hall y (List.mem_cons_of_mem x hy)), List.map_cons,
      List.cons_append]

theorem listPass_eoi :
    ∀ (items : List Str), (∀ x ∈ items, startsItem x = true) →
      listPass true items =
        items.map (fun x => s2l "\\item " ++ (pyStrip x).drop 2) ++
          [s2l "\\end\x7bitemize\x7d"] := by
  intro items
  induction items with
  | nil => intro _; rfl
  | cons x items ih =>
    intro hall
    rw [listPass, if_pos (hall x (List.mem_cons_self x items)),
      ih (fun y hy => hall y (List.mem_cons_of_mem x hy)), List.map_cons,
      List.cons_append]

theorem listPass_mid_false (post : List Str) :
    listPass false (s2l "- a" :: s2l "- b" :: s2l "not a list" :: post) =
      s2l "\\begin\x7bitemize\x7d" :: s2l "\\item a" :: s2l "\\item b" ::
        s2l "\\end\x7bitemize\x7d" :: s2l "not a list" :: listPass false post := by
  rw [listPass, if_pos (by decide), listPass, if_pos (by decide),
    listPass, if_neg (by decide),
    show s2l "\\item " ++ (pyStrip (s2l "- a")).drop 2 = s2l "\\item a"
      from by decide,
    show s2l "\\item " ++ (pyStrip (s2l "- b")).drop 2 = s2l "\\item b"
      from by decide]

theorem listPass_mid_true (post : List Str) :
    listPass true (s2l "- a" :: s2l "- b" :: s2l "not a list" :: post) =
      s2l "\\item a" :: s2l "\\item b" ::
        s2l "\\end\x7bitemize\x7d" :: s2l "not a list" :: listPass false post := by
  rw [listPass, if_pos (by decide), listPass, if_pos (by decide),
    listPass, if_neg (by decide),
    show s2l "\\item " ++ (pyStrip (s2l "- a")).drop 2 = s2l "\\item a"
      from by decide,
    show s2l "\\item " ++ (pyStrip (s2l "- b")).drop 2 = s2l "\\item b"
      from by decide]

theorem listPass_contains (pre : List Str) :
    ∀ post : List Str,
      List.Sublist
        [s2l "\\begin\x7bitemize\x7d", s2l "\\item a", s2l "\\item b",
         s2l "\\end\x7bitemize\x7d", s2l "not a list"]
        (listPass false (pre ++
          (s2l "- a" :: s2l "- b" :: s2l "not a list" :: post))) ∧
      List.Sublist
        [s2l "\\item a", s2l "\\item b",
         s2l "\\end\x7bitemize\x7d", s2l "not a list"]
        (listPass true (pre ++
          (s2l "- a" :: s2l "- b" :: s2l "not a list" :: post))) := by
  induction pre with
  | nil =>
    intro post
    rw [List.nil_append]
    constructor
    · rw [listPass_mid_false]
      exact List.sublist_append_left _ (listPass false post)
    · rw [listPass_mid_true]
      exact List.sublist_append_left _ (listPass false post)
  | cons p pre ih =>
    intro post
    rw [List.cons_append]
    constructor
    · by_cases hs : startsItem p = true
      · rw [listPass, if_pos hs]
        exact ((ih post).2.cons _).cons₂ _
      · rw [listPass, if_neg hs]
        exact ((ih post).1).cons _
    · by_cases hs : startsItem p = true
      · rw [listPass, if_pos hs]
        exact ((ih post).2).cons _
      · rw [listPass, if_neg hs]
        have h45 : List.Sublist
            [s2l "\\item a", s2l "\\item b",
             s2l "\\end\x7bitemize\x7d", s2l "not a list"]
            [s2l "\\begin\x7bitemize\x7d", s2l "\\item a", s2l "\\item b",
             s2l "\\end\x7bitemize\x7d", s2l "not a list"] :=
          List.Sublist.cons _ (List.Sublist.refl _)
        exact ((h45.trans ((ih post).1)).cons _).cons _

theorem pcb_inline_eval (env : Collab) (pd : Str) :
    process_content_block env
        ⟨s2l "text", textOnly (s2l "- a\n- b\nnot a list")⟩ pd =
      (s2l "- a\n- b\nnot a list\n\n", []) := by
  rw [pcb_inline_plain env pd (textOnly (s2l "- a\n- b\nnot a list"))
    (s2l "- a\n- b\nnot a list") rfl (by decide)]
  decide

/-- C7.  List conversion on the `textPath` path: the example external text
renders with its item lines wrapped in one itemize region followed by the
non-list line; an item line opens a region, consecutive item lines continue
it, the first non-item line (or the end of input) closes it, and regions
emitted by the pass are never nested (the markers strictly alternate). -/
theorem textpath_list_conversion :
    (process_content_block
        ⟨fun _ _ => s2l "- a\n- b\nnot a list", fun _ _ => []⟩
        ⟨s2l "text", pathOnly (s2l "content.md")⟩ (s2l "pages/1") =
      (s2l "\\begin\x7bitemize\x7d\n\\item a\n\\item b\n\\end\x7bitemize\x7d\nnot a list",
        [])) ∧
    (∀ (x : Str) (ls : List Str), startsItem x = true →
      listPass false (x :: ls) = s2l "\\begin\x7bitemize\x7d" ::
        (s2l "\\item " ++ (pyStrip x).drop 2) :: listPass true ls) ∧
    (∀ (l : Str), ¬ startsItem l = true → ∀ (items rest : List Str),
      (∀ x ∈ items, startsItem x = true) →
      listPass true (items ++ l :: rest) =
        items.map (fun x => s2l "\\item " ++ (pyStrip x).drop 2) ++
          (s2l "\\end\x7bitemize\x7d" :: l :: listPass false rest)) ∧
    (∀ (items : List Str), (∀ x ∈ items, startsItem x = true) →
      listPass true items =
        items.map (fun x => s2l "\\item " ++ (pyStrip x).drop 2) ++
          [s2l "\\end\x7bitemize\x7d"]) ∧
    (∀ (pre post : List Str),
      List.Sublist
        [s2l "\\begin\x7bitemize\x7d", s2l "\\item a", s2l "\\item b",
         s2l "\\end\x7bitemize\x7d", s2l "not a list"]
        (listPass false (pre ++
          (s2l "- a" :: s2l "- b" :: s2l "not a list" :: post)))) ∧
    (∀ ls : List Str, (∀ l ∈ ls, isMark l = false) →
      ∃ k, (listPass false ls).filter isMark = altMark k) :=
  ⟨by decide, listPass_open, listPass_close, listPass_eoi,
    fun pre post => (listPass_contains pre post).1,
    fun ls h => (listPass_marks ls h).1⟩

/-- Witness for C7: the closing rule applied to the example lines. -/
theorem textpath_list_conversion_witness :
    listPass true ([s2l "- a", s2l "- b"] ++ s2l "not a list" :: []) =
      [s2l "- a", s2l "- b"].map
        (fun x => s2l "\\item " ++ (pyStrip x).drop 2) ++
        (s2l "\\end\x7bitemize\x7d" :: s2l "not a list" :: listPass false []) :=
  textpath_list_conversion.2.2.1 (s2l "not a list") (by decide)
    [s2l "- a", s2l "- b"] [] (by decide)

/-- C8 (amended): the list-detection pass does not run on the inline-text
path.  A non-heading inline text block renders as the formatted text plus a
blank line, with no list conversion: item-style lines stay as they are and
no itemize region is emitted. -/
theorem inline_no_list_pass :
    (∀ (env : Collab) (pd : Str) (d : BlockData) (t : Str),
      d.text = some t → t.head? ≠ some '#' →
      process_content_block env ⟨s2l "text", d⟩ pd =
        (create_latex_text t ++ s2l "\n\n", [])) ∧
    (∀ (env : Collab) (pd : Str),
      process_content_block env
          ⟨s2l "text", textOnly (s2l "- a\n- b\nnot a list")⟩ pd =
        (s2l "- a\n- b\nnot a list\n\n", [])) ∧
    ¬ (s2l "\\begin\x7bitemize\x7d" <:+:
      (process_content_block collabNull
        ⟨s2l "text", textOnly (s2l "- a\n- b\nnot a list")⟩ []).1) :=
  ⟨pcb_inline_plain, pcb_inline_eval, by decide⟩

/-- Witness for C8: a plain inline block fed through the theorem. -/
theorem inline_no_list_pass_witness :
    process_content_block collabNull ⟨s2l "text", textOnly (s2l "plain")⟩ [] =
      (create_latex_text (s2l "plain") ++ s2l "\n\n", []) :=
  inline_no_list_pass.1 collabNull [] (textOnly (s2l "plain")) _ rfl (by decide)

/-- C8 counterexample: for an inline text block whose formatted text contains
item-style lines, the rendered fragment contains no itemize region at all —
the list-detection pass exists only on the `textPath` path. -/
theorem inline_list_counterexample :
    process_content_block collabNull
        ⟨s2l "text", textOnly (s2l "- a\n- b\nnot a list")⟩ [] =
      (s2l "- a\n- b\nnot a list\n\n", []) ∧
    ¬ (s2l "\\begin\x7bitemize\x7d" <:+:
      (process_content_block collabNull
        ⟨s2l "text", textOnly (s2l "- a\n- b\nnot a list")⟩ []).1) ∧
    ¬ (s2l "\\item a" <:+:
      (process_content_block collabNull
        ⟨s2l "text", textOnly (s2l "- a\n- b\nnot a list")⟩ []).1) :=
  ⟨by decide, by decide, by decide⟩

/-- C9.  Non-fatal degradation: a text block with neither `text` nor
`textPath` renders to the empty fragment with the missing-fields warning,
and a block of unknown kind renders to the empty fragment with the
unknown-kind warning; `process_content_block` is a total function, so
neither case raises. -/
theorem nonfatal_degradation :
    (∀ (env : Collab) (pd : Str) (b : ContentBlock),
      b.type = s2l "text" → b.data.text = none → b.data.textPath = none →
      process_content_block env b pd =
        ([], [s2l "Text block is missing both \x27text\x27 and \x27textPath\x27"])) ∧
    (∀ (env : Collab) (pd : Str) (b : ContentBlock),
      b.type ∉ [s2l "text", s2l "image", s2l "table", s2l "code",
        s2l "equation", s2l "listing"] →
      process_content_block env b pd =
        ([], [s2l "Unknown content block type: " ++ b.type])) := by
  constructor
  · intro env pd b ht hn1 hn2
    unfold process_content_block
    rw [if_pos ht]
    dsimp only
    rw [hn1]
    dsimp only
    rw [hn2]
  · intro env pd b hmem
    simp only [List.mem_cons, List.not_mem_nil, or_false, not_or] at hmem
    obtain ⟨h1, h2, h3, h4, h5, h6⟩ := hmem
    unfold process_content_block
    rw [if_neg h1, if_neg h2, if_neg h3, if_neg h4, if_neg h5, if_neg h6]

/-- Witness for C9: a field-less text block and a `video` block. -/
theorem nonfatal_degradation_witness :
    process_content_block collabNull
        ⟨s2l "text", ⟨none, none, none, none, none, none, none, none, none⟩⟩
        [] =
      ([], [s2l "Text block is missing both \x27text\x27 and \x27textPath\x27"]) ∧
    process_content_block collabNull
        ⟨s2l "video", ⟨none, none, none, none, none, none, none, none, none⟩⟩
        [] =
      ([], [s2l "Unknown content block type: " ++ s2l "video"]) :=
  ⟨nonfatal_degradation.1 collabNull []
      ⟨s2l "text", ⟨none, none, none, none, none, none, none, none, none⟩⟩
      rfl rfl rfl,
    nonfatal_degradation.2 collabNull []
      ⟨s2l "video", ⟨none, none, none, none, none, none, none, none, none⟩⟩
      (by decide)⟩
